import Mathlib

/-!
# Verification of the lilypond-rs note codec

A shallow embedding of the note codec of the `lilypond` crate: the
anchored validating pattern `LILYPOND_NOTE_REGEX`
(src/lilypond_objects/lilypond_note.rs), the structured note model
(src/notation/pitch.rs, src/notation/rhythm.rs, src/notation/note.rs),
the decode path `LilyPondNote::to_note` and the encode path
`Note::to_lilypond_note`.

Strings are modelled as `List Char`.  The Rust `regex` crate matches with
leftmost-first (preference-order) semantics: alternations try branches left
to right and bounded repetitions are greedy, with backtracking into earlier
fields when a later field cannot match.  Because the pattern is anchored at
both ends and every sub-pattern is a finite alternation of literal strings,
the whole regex is equivalent to a backtracking search over explicit
candidate lists, one list per named capture group, in the exact preference
order the engine uses.  `lilypondMatch` below implements that search and
returns the five named captures, or `none` when the string is rejected.
-/

set_option maxRecDepth 8192

/-! ## The note model (src/notation/pitch.rs, src/notation/rhythm.rs)

`Rhythm` is embedded with the `dotted : Bool` field that the codec files
(src/notation/note.rs, src/lilypond_objects/lilypond_note.rs and their
in-crate tests, e.g. the `Rhythm { length, duration_type, dotted }`
literals in lilypond_note.rs) construct and read.  The snapshot of
src/notation/rhythm.rs in the tree carries a `dots : Dots` counter field
from a different revision of the crate; that `Dots` type is embedded
separately below, as the codec under verification never produces it. -/

/-- Natural pitch note names; `None` marks a rest (src/notation/pitch.rs). -/
inductive NoteName where
  | A | B | C | D | E | F | G | None
deriving DecidableEq

/-- Scientific-pitch octaves `S0`..`S9`; `None` marks a rest. -/
inductive Octave where
  | S0 | S1 | S2 | S3 | S4 | S5 | S6 | S7 | S8 | S9 | None
deriving DecidableEq

/-- Accidentals a note can have (src/notation/pitch.rs). -/
inductive Accidental where
  | None | Sharp | DoubleSharp | Flat | DoubleFlat
deriving DecidableEq

/-- Power-of-two note values (src/notation/rhythm.rs). -/
inductive Length where
  | Whole | Half | Quarter | Eighth | Sixteenth | ThirtySecond
  | SixtyFourth | OneTwentyEighth
deriving DecidableEq

/-- Note versus rest (src/notation/rhythm.rs). -/
inductive DurationType where
  | Note | Rest
deriving DecidableEq

/-- `impl Default for Octave` returns `Octave::S3`. -/
def octaveDefault : Octave := Octave.S3

/-- `impl Default for Accidental` returns `Accidental::None`. -/
def accidentalDefault : Accidental := Accidental.None

/-- `impl Default for Length` returns `Length::Quarter`. -/
def lengthDefault : Length := Length.Quarter

/-- `impl Default for DurationType` returns `DurationType::Note`
(src/notation/rhythm.rs lines 61-66). -/
def durationTypeDefault : DurationType := DurationType.Note

/-- A single pitch (src/notation/pitch.rs). -/
structure Pitch where
  note_name : NoteName
  octave : Octave
  accidental : Accidental
deriving DecidableEq

/-- A duration for a note, with the boolean dot flag used by the codec
files (see the module comment). -/
structure Rhythm where
  length : Length
  duration_type : DurationType
  dotted : Bool
deriving DecidableEq

/-- A note with pitch and rhythm (src/notation/note.rs). -/
structure Note where
  pitch : Pitch
  rhythm : Rhythm
deriving DecidableEq

/-- The dot counter of the other revision of src/notation/rhythm.rs
(`dots` is a `u8` there; the counts that occur fit in it). -/
structure Dots where
  dots : Nat
deriving DecidableEq

/-- `Dots::new` (src/notation/rhythm.rs lines 74-78). -/
def Dots.new (k : Nat) : Dots := ⟨k⟩

/-- `Dots::get_num_dots` (src/notation/rhythm.rs lines 80-83). -/
def Dots.get_num_dots (d : Dots) : Nat := d.dots

/-- `Pitch::new`: note name plus defaulted octave and accidental. -/
def Pitch.new (nn : NoteName) : Pitch :=
  ⟨nn, octaveDefault, accidentalDefault⟩

/-- `Rhythm::new`: every field defaulted (Quarter, Note, not dotted). -/
def Rhythm.new : Rhythm :=
  ⟨lengthDefault, durationTypeDefault, false⟩

/-- `Note::new` (src/notation/note.rs lines 39-44): a defaulted pitch and
rhythm around the given note name. -/
def Note.new (nn : NoteName) : Note :=
  ⟨Pitch.new nn, Rhythm.new⟩

/-! ## The grammar (src/lilypond_objects/lilypond_note.rs lines 60-69)

The active pattern is

  `^(?P<note_name>[a-gr])`
  `(?P<accidental>(?:f{0,2}|s{0,2})|(?:(?:is){0,2}|(?:es){0,2}))`
  `(?P<octave>(?:(?:,{0,3})|(?:{0,6} raise marks))?)`
  `(?P<duration>(?:1|2|4|8|(?:16)|(?:32)|(?:64)|(?:128))?)`
  `(?P<dot>\.?)$`

where the raise mark is the apostrophe character (code 39).  Each capture
group is a finite alternation of literal strings; the lists below hold the
alternatives in the engine preference order: alternation branches left to
right, bounded greedy repetitions from the largest repetition count down to
the empty string. -/

/-- The octave raise mark: an apostrophe, character code 39. -/
def apo : Char := Char.ofNat 39

/-- The characters matched by the `note_name` class `[a-gr]`. -/
def noteNameChars : List Char :=
  [ 'a', 'b', 'c', 'd', 'e', 'f', 'g', 'r' ]

/-- Alternatives of the `accidental` group in preference order:
`f{0,2}`, then `s{0,2}`, then `(is){0,2}`, then `(es){0,2}`, each greedy. -/
def accCands : List (List Char) :=
  [ [ 'f', 'f' ], [ 'f' ], [],
    [ 's', 's' ], [ 's' ], [],
    [ 'i', 's', 'i', 's' ], [ 'i', 's' ], [],
    [ 'e', 's', 'e', 's' ], [ 'e', 's' ], [] ]

/-- Alternatives of the `octave` group in preference order: up to three
lower marks (greedy), then up to six raise marks (greedy), then the skip of
the outer optional group. -/
def octCands : List (List Char) :=
  [ [ ',', ',', ',' ], [ ',', ',' ], [ ',' ], [],
    List.replicate 6 apo, List.replicate 5 apo, List.replicate 4 apo,
    List.replicate 3 apo, List.replicate 2 apo, List.replicate 1 apo, [],
    [] ]

/-- Alternatives of the `duration` group in preference order. -/
def durCands : List (List Char) :=
  [ [ '1' ], [ '2' ], [ '4' ], [ '8' ],
    [ '1', '6' ], [ '3', '2' ], [ '6', '4' ], [ '1', '2', '8' ], [] ]

/-- Alternatives of the `dot` group: one dot, or nothing. -/
def dotCands : List (List Char) :=
  [ [ '.' ], [] ]

/-- Strip an explicit literal from the front of the input, returning the
rest, or `none` when the literal is not a prefix of the input. -/
def stripTok : List Char → List Char → Option (List Char)
  | [], s => some s
  | _ :: _, [] => none
  | p :: ps, c :: cs => if p = c then stripTok ps cs else none

/-- Try the continuation on each candidate in order and keep the first
success: the backtracking order of the regex engine. -/
def firstSome {α : Type} : List (List Char) → (List Char → Option α) → Option α
  | [], _ => none
  | c :: cs, f =>
    match f c with
    | some b => some b
    | none => firstSome cs f

/-- Match the `dot` group against `s` and require the end of the string
(the `$` anchor); returns the captured dot field. -/
def matchDot (s : List Char) : Option (List Char) :=
  firstSome dotCands fun c =>
    (stripTok c s).bind fun r => if r = [] then some c else none

/-- Match the `duration` then `dot` groups; returns both captures. -/
def matchDur (s : List Char) : Option (List Char × List Char) :=
  firstSome durCands fun c =>
    (stripTok c s).bind fun r => (matchDot r).map fun t => (c, t)

/-- Match the `octave`, `duration` and `dot` groups; returns the captures. -/
def matchOct (s : List Char) : Option (List Char × List Char × List Char) :=
  firstSome octCands fun c =>
    (stripTok c s).bind fun r => (matchDur r).map fun p => (c, p)

/-- Match everything after the note name; returns the `accidental`,
`octave`, `duration` and `dot` captures. -/
def matchAcc (s : List Char) :
    Option (List Char × List Char × List Char × List Char) :=
  firstSome accCands fun c =>
    (stripTok c s).bind fun r => (matchOct r).map fun p => (c, p)

/-- The five named captures of `LILYPOND_NOTE_REGEX`. -/
structure RegexCaptures where
  note_name : List Char
  accidental : List Char
  octave : List Char
  duration : List Char
  dot : List Char
deriving DecidableEq

/-- Full anchored match of `LILYPOND_NOTE_REGEX` against a string, with
the captures of the successful match, or `none` when the string is
rejected.  `is_match` of the Rust code is `Option.isSome` of this. -/
def lilypondMatch (s : List Char) : Option RegexCaptures :=
  match s with
  | [] => none
  | c :: rest =>
    if c ∈ noteNameChars then
      (matchAcc rest).map fun p => ⟨[ c ], p.1, p.2.1, p.2.2.1, p.2.2.2⟩
    else none

/-! ## The validated wrapper (src/lilypond_objects/lilypond_note.rs)

`LilyPondNote::new` validates a string against the regex and wraps it; it
returns `Err(())` on a non-match.  `get_capture` on a wrapped (hence
matching) string returns the named capture of the successful match, which
is what `lilypondMatch` computes. -/

/-- The `LilyPondNote` struct: a `String` that passed the regex gate. -/
structure LilyPondNote where
  note : List Char
deriving DecidableEq

/-- `LilyPondNote::new` (lilypond_note.rs lines 95-103): `Ok` exactly when
`LILYPOND_NOTE_REGEX.is_match(note)`, and `Err(())` otherwise. -/
def LilyPondNote.new (s : List Char) : Except Unit LilyPondNote :=
  if (lilypondMatch s).isSome then Except.ok ⟨s⟩ else Except.error ()

/-! ## The decode path (lilypond_note.rs lines 165-294)

Each `get_*` method reads one or two captures of the validated string and
maps them to a model value; the `panic!` arms of the Rust code are
modelled as `none`.  The inner `match` on the captured text is embedded as
a sequential equality chain, which is what a Rust `match` on string
slices is.  The captures of a wrapped note are total, so the methods are
stated on `RegexCaptures`; `to_note` composes them with `lilypondMatch`. -/

/-- `LilyPondNote::get_duration_type`: the note is a rest exactly when the
`note_name` capture is the rest token. -/
def get_duration_type (c : RegexCaptures) : DurationType :=
  if c.note_name = [ 'r' ] then DurationType.Rest else DurationType.Note

/-- The letter arm of `get_note_name`; the fall-through arm panics. -/
def name_of_str (s : List Char) : Option NoteName :=
  if s = [ 'a' ] then some NoteName.A
  else if s = [ 'b' ] then some NoteName.B
  else if s = [ 'c' ] then some NoteName.C
  else if s = [ 'd' ] then some NoteName.D
  else if s = [ 'e' ] then some NoteName.E
  else if s = [ 'f' ] then some NoteName.F
  else if s = [ 'g' ] then some NoteName.G
  else none

/-- `LilyPondNote::get_note_name` (lines 172-186). -/
def get_note_name (c : RegexCaptures) : Option NoteName :=
  match get_duration_type c with
  | DurationType.Rest => some NoteName.None
  | DurationType.Note => name_of_str c.note_name

/-- The spelling arm of `get_accidental`; the fall-through arm panics. -/
def acc_of_str (s : List Char) : Option Accidental :=
  if s = [] then some Accidental.None
  else if s = [ 's' ] then some Accidental.Sharp
  else if s = [ 'i', 's' ] then some Accidental.Sharp
  else if s = [ 's', 's' ] then some Accidental.DoubleSharp
  else if s = [ 'i', 's', 'i', 's' ] then some Accidental.DoubleSharp
  else if s = [ 'f' ] then some Accidental.Flat
  else if s = [ 'e', 's' ] then some Accidental.Flat
  else if s = [ 'f', 'f' ] then some Accidental.DoubleFlat
  else if s = [ 'e', 's', 'e', 's' ] then some Accidental.DoubleFlat
  else none

/-- `LilyPondNote::get_accidental` (lines 188-204). -/
def get_accidental (c : RegexCaptures) : Option Accidental :=
  match get_duration_type c with
  | DurationType.Rest => some Accidental.None
  | DurationType.Note => acc_of_str c.accidental

/-- The 0..9 level table at the end of `get_octave`; the fall-through arm
panics. -/
def octFromNat (n : Nat) : Option Octave :=
  if n = 0 then some Octave.S0
  else if n = 1 then some Octave.S1
  else if n = 2 then some Octave.S2
  else if n = 3 then some Octave.S3
  else if n = 4 then some Octave.S4
  else if n = 5 then some Octave.S5
  else if n = 6 then some Octave.S6
  else if n = 7 then some Octave.S7
  else if n = 8 then some Octave.S8
  else if n = 9 then some Octave.S9
  else none

/-- The counting arm of `get_octave` (lines 209-236): start from the
reference level 3, panic on mixed marks, add the raise marks or subtract
the lower marks, and map the level through the 0..9 table.  The count of
lower marks is subtracted from a Rust `usize`, so more than three lower
marks panics (overflow in a debug build; in a release build the value
wraps and falls through to the panicking table arm) — either way `none`. -/
def oct_of_str (s : List Char) : Option Octave :=
  if s.contains ',' && s.contains apo then none
  else if s.contains apo then octFromNat (3 + s.count apo)
  else if s.contains ',' then
    if s.count ',' ≤ 3 then octFromNat (3 - s.count ',') else none
  else octFromNat 3

/-- `LilyPondNote::get_octave` (lines 206-238). -/
def get_octave (c : RegexCaptures) : Option Octave :=
  match get_duration_type c with
  | DurationType.Rest => some Octave.None
  | DurationType.Note => oct_of_str c.octave

/-- The body of `get_length` (lines 240-253); the empty capture takes the
`Default::default()` length and the fall-through arm panics. -/
def len_of_str (s : List Char) : Option Length :=
  if s = [ '1' ] then some Length.Whole
  else if s = [ '2' ] then some Length.Half
  else if s = [ '4' ] then some Length.Quarter
  else if s = [ '8' ] then some Length.Eighth
  else if s = [ '1', '6' ] then some Length.Sixteenth
  else if s = [ '3', '2' ] then some Length.ThirtySecond
  else if s = [ '6', '4' ] then some Length.SixtyFourth
  else if s = [ '1', '2', '8' ] then some Length.OneTwentyEighth
  else if s = [] then some lengthDefault
  else none

/-- `LilyPondNote::get_length`; note that it does not branch on rests. -/
def get_length (c : RegexCaptures) : Option Length :=
  len_of_str c.duration

/-- `LilyPondNote::get_dot` (lines 255-257): the captured dot field equals
the dot character. -/
def get_dot (c : RegexCaptures) : Bool :=
  c.dot == [ '.' ]

/-- The body of `LilyPondNote::to_note` (lines 278-294) on the captures:
build `Note::new(note_name)` and replace every field with the decoded
value (the setters `pitch.accidental`, `pitch.octave`,
`rhythm.duration_type`, `rhythm.length`, `rhythm.dotted` each overwrite
one field wholesale).  Any panicking sub-mapping makes the whole decode
`none`.  `Note::from(&LilyPondNote)` in src/notation/note.rs lines 236-274
is a line-for-line duplicate of the same logic. -/
def to_note_caps (c : RegexCaptures) : Option Note :=
  match get_note_name c, get_accidental c, get_octave c, get_length c with
  | some nn, some acc, some oct, some len =>
    some ⟨⟨nn, oct, acc⟩, ⟨len, get_duration_type c, get_dot c⟩⟩
  | _, _, _, _ => none

/-- `LilyPondNote::to_note` as a function of the wrapped string: match the
string (total on wrapped notes) and decode the captures. -/
def to_note (s : List Char) : Option Note :=
  (lilypondMatch s).bind to_note_caps

/-! ## The encode path (src/notation/note.rs lines 45-136)

Each `get_lilypond_*` method renders one field; `to_lilypond_note`
concatenates them in order and re-validates the result through
`LilyPondNote::new(..).unwrap()`, whose potential panic is modelled as
`none`. -/

/-- The letter table inside `get_lilypond_note_name` (sounding branch). -/
def nameTok (nn : NoteName) : List Char :=
  match nn with
  | NoteName.A => [ 'a' ]
  | NoteName.B => [ 'b' ]
  | NoteName.C => [ 'c' ]
  | NoteName.D => [ 'd' ]
  | NoteName.E => [ 'e' ]
  | NoteName.F => [ 'f' ]
  | NoteName.G => [ 'g' ]
  | NoteName.None => [ 'r' ]

/-- `Note::get_lilypond_note_name` (lines 45-59). -/
def get_lilypond_note_name (n : Note) : List Char :=
  match n.rhythm.duration_type with
  | DurationType.Rest => [ 'r' ]
  | DurationType.Note => nameTok n.pitch.note_name

/-- The spelling table inside `get_lilypond_accidental` (sounding branch). -/
def accTok (a : Accidental) : List Char :=
  match a with
  | Accidental.Flat => [ 'f' ]
  | Accidental.DoubleFlat => [ 'f', 'f' ]
  | Accidental.Sharp => [ 's' ]
  | Accidental.DoubleSharp => [ 's', 's' ]
  | Accidental.None => []

/-- `Note::get_lilypond_accidental` (lines 60-71). -/
def get_lilypond_accidental (n : Note) : List Char :=
  match n.rhythm.duration_type with
  | DurationType.Rest => []
  | DurationType.Note => accTok n.pitch.accidental

/-- The mark table inside `get_lilypond_octave` (sounding branch). -/
def octTok (o : Octave) : List Char :=
  match o with
  | Octave.S0 => [ ',', ',', ',' ]
  | Octave.S1 => [ ',', ',' ]
  | Octave.S2 => [ ',' ]
  | Octave.S3 => []
  | Octave.S4 => List.replicate 1 apo
  | Octave.S5 => List.replicate 2 apo
  | Octave.S6 => List.replicate 3 apo
  | Octave.S7 => List.replicate 4 apo
  | Octave.S8 => List.replicate 5 apo
  | Octave.S9 => List.replicate 6 apo
  | Octave.None => []

/-- `Note::get_lilypond_octave` (lines 72-89). -/
def get_lilypond_octave (n : Note) : List Char :=
  match n.rhythm.duration_type with
  | DurationType.Rest => []
  | DurationType.Note => octTok n.pitch.octave

/-- The digit table of `get_lilypond_duration` (lines 90-101); the length
is always rendered, with no rest branch and no empty default. -/
def durTok (l : Length) : List Char :=
  match l with
  | Length.Whole => [ '1' ]
  | Length.Half => [ '2' ]
  | Length.Quarter => [ '4' ]
  | Length.Eighth => [ '8' ]
  | Length.Sixteenth => [ '1', '6' ]
  | Length.ThirtySecond => [ '3', '2' ]
  | Length.SixtyFourth => [ '6', '4' ]
  | Length.OneTwentyEighth => [ '1', '2', '8' ]

/-- `Note::get_lilypond_dot` (lines 102-107). -/
def dotTok (d : Bool) : List Char :=
  match d with
  | true => [ '.' ]
  | false => []

/-- `Note::to_lilypond_note` (lines 121-136): format the five fields in
order and re-validate through `LilyPondNote::new(..).unwrap()`; the
`unwrap` panic on a malformed rendering is modelled as `none`. -/
def to_lilypond_note (n : Note) : Option (List Char) :=
  let s := get_lilypond_note_name n ++ get_lilypond_accidental n ++
    get_lilypond_octave n ++ durTok n.rhythm.length ++ dotTok n.rhythm.dotted
  if (lilypondMatch s).isSome then some s else none

/-! ## The rest-consistency invariant of spec section 3 -/

/-- The invariant exactly as the spec states it: `duration_type == Rest`
iff `note_name == None` iff `octave == None` iff `accidental == None`. -/
def restInvariant (n : Note) : Prop :=
  (n.rhythm.duration_type = DurationType.Rest ↔
    n.pitch.note_name = NoteName.None) ∧
  (n.pitch.note_name = NoteName.None ↔ n.pitch.octave = Octave.None) ∧
  (n.pitch.octave = Octave.None ↔ n.pitch.accidental = Accidental.None)

instance (n : Note) : Decidable (restInvariant n) := by
  unfold restInvariant; infer_instance

/-! ## The canonical form of an accepted string (spec section 8)

The round-trip property of the spec says `encode(decode(s))` is the
canonical form of `s`: the same fields with every accidental spelling
normalized to the single spelling the encoder emits and each field
rendered in the form the encoder renders it — an absent duration renders
as the digits of the default Quarter length, and a rest renders its
(grammatically present but musically void) accidental and octave fields as
the empty string, since the encoder emits nothing for the pitch fields of
a rest.  These definitions follow the words of the spec, not the code, and
exist to be compared with the composition of the two codec directions. -/

/-- Spelling normalization on the accidental field: the syllabic spellings
map to the one-letter spellings the encoder emits; everything else is
already canonical. -/
def normalizeAcc (a : List Char) : List Char :=
  if a = [ 'i', 's' ] then [ 's' ]
  else if a = [ 'i', 's', 'i', 's' ] then [ 's', 's' ]
  else if a = [ 'e', 's' ] then [ 'f' ]
  else if a = [ 'e', 's', 'e', 's' ] then [ 'f', 'f' ]
  else a

/-- Canonical rendering of the duration field: an absent duration renders
as the default Quarter literal. -/
def canonDur (u : List Char) : List Char :=
  if u = [] then [ '4' ] else u

/-- The canonical form of an accepted note string, assembled field by
field from its captures. -/
def canonical_form (c : RegexCaptures) : List Char :=
  if c.note_name = [ 'r' ] then c.note_name ++ canonDur c.duration ++ c.dot
  else c.note_name ++ normalizeAcc c.accidental ++ c.octave ++
    canonDur c.duration ++ c.dot

/-- The sharp-family accidental tokens of the grammar (the one-letter and
syllabic sharp spellings), for stating the no-mixing property. -/
def sharpFamily : List (List Char) :=
  [ [ 's' ], [ 's', 's' ], [ 'i', 's' ], [ 'i', 's', 'i', 's' ] ]

/-- The flat-family accidental tokens of the grammar. -/
def flatFamily : List (List Char) :=
  [ [ 'f' ], [ 'f', 'f' ], [ 'e', 's' ], [ 'e', 's', 'e', 's' ] ]

/-! ## Sanity examples, mirroring the unit tests of the crate -/

example : (lilypondMatch [ 'a', '4' ]).isSome = true := by decide
example : (lilypondMatch [ 'f', 's', 's', ',', ',', '1', '2', '8', '.' ]) =
    some ⟨[ 'f' ], [ 's', 's' ], [ ',', ',' ], [ '1', '2', '8' ], [ '.' ]⟩ := by
  decide
example : (lilypondMatch [ 'a', 's', 'd', 'f' ]) = none := by decide
example : (lilypondMatch [ 'r' ]) = some ⟨[ 'r' ], [], [], [], []⟩ := by decide
example : to_lilypond_note (Note.new NoteName.A) = some [ 'a', '4' ] := by
  decide
example : to_note [ 'r', '8', '.' ] =
    some ⟨⟨NoteName.None, Octave.None, Accidental.None⟩,
      ⟨Length.Eighth, DurationType.Rest, true⟩⟩ := by decide
example : to_note [ 'e', 'f', ',', ',', ',', '6', '4' ] =
    some ⟨⟨NoteName.E, Octave.S0, Accidental.Flat⟩,
      ⟨Length.SixtyFourth, DurationType.Note, false⟩⟩ := by decide

/-! ## Soundness of the matcher: captures come from the candidate lists -/

/-- A successful backtracking search succeeds on one of its candidates. -/
theorem firstSome_mem {α : Type} {l : List (List Char)}
    {f : List Char → Option α} {b : α} (h : firstSome l f = some b) :
    ∃ c ∈ l, f c = some b := by
  induction l with
  | nil => simp [firstSome] at h
  | cons c cs ih =>
    rw [firstSome] at h
    cases hfc : f c with
    | some b2 =>
      rw [hfc] at h
      exact ⟨c, List.mem_cons_self c cs, hfc.trans h⟩
    | none =>
      rw [hfc] at h
      obtain ⟨c2, hm, he⟩ := ih h
      exact ⟨c2, List.mem_cons_of_mem c hm, he⟩

/-- A successful stage strips one of its candidates off the input and the
continuation succeeds on the remainder. -/
theorem stage_sound {α : Type} {cands : List (List Char)}
    {f : List Char → List Char → Option α} {s : List Char} {b : α}
    (h : firstSome cands (fun c => (stripTok c s).bind (f c)) = some b) :
    ∃ c ∈ cands, ∃ r, stripTok c s = some r ∧ f c r = some b := by
  obtain ⟨c, hc, he⟩ := firstSome_mem h
  cases hst : stripTok c s with
  | none => rw [hst] at he; simp at he
  | some r =>
    rw [hst] at he
    simp only [Option.some_bind] at he
    exact ⟨c, hc, r, hst, he⟩

/-- Every capture of a successful match is drawn from the candidate list
of its group (and the note name from the `[a-gr]` class). -/
theorem match_mem {s : List Char} {caps : RegexCaptures}
    (h : lilypondMatch s = some caps) :
    (∃ c ∈ noteNameChars, caps.note_name = [ c ]) ∧
    caps.accidental ∈ accCands ∧ caps.octave ∈ octCands ∧
    caps.duration ∈ durCands ∧ caps.dot ∈ dotCands := by
  cases s with
  | nil => simp [lilypondMatch] at h
  | cons c rest =>
    rw [lilypondMatch] at h
    by_cases hc : c ∈ noteNameChars
    · rw [if_pos hc] at h
      obtain ⟨p, hp, hcaps⟩ := Option.map_eq_some'.1 h
      simp only [matchAcc] at hp
      obtain ⟨a, ha, r1, _, h1⟩ := stage_sound hp
      obtain ⟨q1, hq1, he1⟩ := Option.map_eq_some'.1 h1
      simp only [matchOct] at hq1
      obtain ⟨o, ho, r2, _, h2⟩ := stage_sound hq1
      obtain ⟨q2, hq2, he2⟩ := Option.map_eq_some'.1 h2
      simp only [matchDur] at hq2
      obtain ⟨u, hu, r3, _, h3⟩ := stage_sound hq2
      obtain ⟨q3, hq3, he3⟩ := Option.map_eq_some'.1 h3
      simp only [matchDot] at hq3
      obtain ⟨t, ht, r4, _, h4⟩ := stage_sound hq3
      have ht4 : q3 = t := by
        by_cases hr4 : r4 = [] <;> simp [hr4] at h4
        exact h4.symm
      subst ht4
      subst he3
      subst he2
      subst he1
      subst hcaps
      exact ⟨⟨c, hc, rfl⟩, ha, ho, hu, ht⟩
    · rw [if_neg hc] at h
      exact absurd h (by simp)

/-! ## Completeness on recombined fields

If each field text is drawn from its candidate list, matching their
concatenation captures exactly those fields.  This is the heart of every
encode-side argument: the encoder only ever emits candidate texts, and no
earlier candidate of any group can steal characters from a later field. -/

/-- Matching a concatenation of candidate texts captures those texts. -/
theorem recomb : ∀ a ∈ accCands, ∀ o ∈ octCands, ∀ u ∈ durCands,
    ∀ t ∈ dotCands, matchAcc (a ++ o ++ u ++ t) = some (a, o, u, t) := by
  decide

/-- Lift a successful tail match to the full anchored match. -/
theorem lilypondMatch_cons {c : Char} {rest : List Char}
    {p : List Char × List Char × List Char × List Char}
    (hc : c ∈ noteNameChars) (h : matchAcc rest = some p) :
    lilypondMatch (c :: rest) =
      some ⟨[ c ], p.1, p.2.1, p.2.2.1, p.2.2.2⟩ := by
  simp [lilypondMatch, hc, h]

/-- The tokens the encoder emits are all candidate texts. -/
theorem accTok_mem (a : Accidental) : accTok a ∈ accCands := by
  cases a <;> decide

/-- Octave mark strings emitted by the encoder are candidate texts. -/
theorem octTok_mem (o : Octave) : octTok o ∈ octCands := by
  cases o <;> decide

/-- Duration digit strings emitted by the encoder are candidate texts. -/
theorem durTok_mem (l : Length) : durTok l ∈ durCands := by
  cases l <;> decide

/-- Dot strings emitted by the encoder are candidate texts. -/
theorem dotTok_mem (d : Bool) : dotTok d ∈ dotCands := by
  cases d <;> decide

/-! ## Field-wise decoding on captured texts

Each lemma considers one capture drawn from its candidate list and
computes the sub-mapping of the decode path on it, together with the text
the encoder would render the decoded value back to.  The other captures
are arbitrary, since each sub-mapping reads only its own capture (plus the
note name for the rest short-circuit). -/

/-- A sounding note name decodes to the letter the encoder re-emits. -/
theorem name_decode (c : Char) (hc : c ∈ noteNameChars) (hr : c ≠ 'r')
    (acc oct dur dot : List Char) :
    ∃ nm, get_note_name ⟨[ c ], acc, oct, dur, dot⟩ = some nm ∧
      nameTok nm = [ c ] ∧ nm ≠ NoteName.None := by
  fin_cases hc
  case _ => exact ⟨_, rfl, rfl, by decide⟩
  case _ => exact ⟨_, rfl, rfl, by decide⟩
  case _ => exact ⟨_, rfl, rfl, by decide⟩
  case _ => exact ⟨_, rfl, rfl, by decide⟩
  case _ => exact ⟨_, rfl, rfl, by decide⟩
  case _ => exact ⟨_, rfl, rfl, by decide⟩
  case _ => exact ⟨_, rfl, rfl, by decide⟩
  case _ => exact absurd rfl hr

/-- A captured accidental of a sounding note decodes to a value whose
re-encoding is the normalized spelling. -/
theorem acc_decode (c : Char) (hc : c ∈ noteNameChars) (hr : c ≠ 'r')
    (acc : List Char) (ha : acc ∈ accCands) (oct dur dot : List Char) :
    ∃ a, get_accidental ⟨[ c ], acc, oct, dur, dot⟩ = some a ∧
      accTok a = normalizeAcc acc := by
  fin_cases hc <;>
    first
      | exact absurd rfl hr
      | fin_cases ha <;> exact ⟨_, rfl, rfl⟩

/-- A captured octave field of a sounding note decodes to a real level
whose re-encoding is the field itself. -/
theorem oct_decode (c : Char) (hc : c ∈ noteNameChars) (hr : c ≠ 'r')
    (oct : List Char) (ho : oct ∈ octCands) (acc dur dot : List Char) :
    ∃ o, get_octave ⟨[ c ], acc, oct, dur, dot⟩ = some o ∧
      octTok o = oct ∧ o ≠ Octave.None := by
  fin_cases hc <;>
    first
      | exact absurd rfl hr
      | fin_cases ho <;> exact ⟨_, rfl, rfl, by decide⟩

/-- A captured duration decodes to a length whose re-encoding is the
canonical duration rendering (the default length for an absent field). -/
theorem len_decode (dur : List Char) (hu : dur ∈ durCands)
    (nn acc oct dot : List Char) :
    ∃ l, get_length ⟨nn, acc, oct, dur, dot⟩ = some l ∧
      durTok l = canonDur dur := by
  fin_cases hu <;> exact ⟨_, rfl, rfl⟩

/-- A captured dot field decodes to the flag whose re-encoding is the
field itself, and the flag counts the captured dot characters. -/
theorem dot_decode (dot : List Char) (ht : dot ∈ dotCands)
    (nn acc oct dur : List Char) :
    ∃ b, get_dot ⟨nn, acc, oct, dur, dot⟩ = b ∧ dotTok b = dot ∧
      (cond b 1 0 = dot.length ∧ dot.length ≤ 1) := by
  fin_cases ht <;> exact ⟨_, rfl, rfl, rfl, by decide⟩

/-- Decoding any capture set whose note name is the rest token yields a
pure rest; the length and dot flag re-encode to the canonical duration
and the captured dot field. -/
theorem rest_decode_caps (acc oct dur dot : List Char)
    (hu : dur ∈ durCands) (ht : dot ∈ dotCands) :
    ∃ l b, to_note_caps ⟨[ 'r' ], acc, oct, dur, dot⟩ =
        some ⟨⟨NoteName.None, Octave.None, Accidental.None⟩,
          ⟨l, DurationType.Rest, b⟩⟩ ∧
      durTok l = canonDur dur ∧ dotTok b = dot := by
  fin_cases hu <;> fin_cases ht <;> exact ⟨_, _, rfl, rfl, rfl⟩

/-! ## Round trip helpers -/

/-- Encode-then-decode on every rest: the rendered string is the rest
token, the digits of the length and the dot suffix, and decoding it
restores the rest unchanged. -/
theorem roundtrip_rest (l : Length) (d : Bool) :
    (to_lilypond_note ⟨⟨NoteName.None, Octave.None, Accidental.None⟩,
      ⟨l, DurationType.Rest, d⟩⟩).bind to_note =
    some ⟨⟨NoteName.None, Octave.None, Accidental.None⟩,
      ⟨l, DurationType.Rest, d⟩⟩ := by
  cases l <;> cases d <;> decide

/-- Encode-then-decode on a sounding note, stated through the letter `c`
the encoder emits for the note name.  The hypotheses say the letter is in
the grammar class and that each field decodes back from its own token,
which the surrounding case analysis discharges by computation. -/
theorem roundtrip_sounding (c : Char) (nm : NoteName) (a : Accidental)
    (o : Octave) (l : Length) (d : Bool)
    (hc : c ∈ noteNameChars)
    (hname : nameTok nm = [ c ])
    (hdec : name_of_str [ c ] = some nm)
    (hacc : acc_of_str (accTok a) = some a)
    (hoct : oct_of_str (octTok o) = some o) :
    (to_lilypond_note ⟨⟨nm, o, a⟩, ⟨l, DurationType.Note, d⟩⟩).bind to_note =
      some ⟨⟨nm, o, a⟩, ⟨l, DurationType.Note, d⟩⟩ := by
  have hm : matchAcc (accTok a ++ octTok o ++ durTok l ++ dotTok d) =
      some (accTok a, octTok o, durTok l, dotTok d) :=
    recomb _ (accTok_mem a) _ (octTok_mem o) _ (durTok_mem l) _ (dotTok_mem d)
  have hfull : lilypondMatch
      ([ c ] ++ accTok a ++ octTok o ++ durTok l ++ dotTok d) =
      some ⟨[ c ], accTok a, octTok o, durTok l, dotTok d⟩ :=
    lilypondMatch_cons hc hm
  have hrn : name_of_str [ 'r' ] = none := by decide
  have hr : ([ c ] : List Char) ≠ [ 'r' ] := by
    intro hh
    rw [hh, hrn] at hdec
    exact Option.noConfusion hdec
  have hdt : get_duration_type
      ⟨[ c ], accTok a, octTok o, durTok l, dotTok d⟩ = DurationType.Note := by
    simp [get_duration_type, hr]
  have h1 : get_note_name
      ⟨[ c ], accTok a, octTok o, durTok l, dotTok d⟩ = some nm := by
    simp only [get_note_name, hdt]
    exact hdec
  have h2 : get_accidental
      ⟨[ c ], accTok a, octTok o, durTok l, dotTok d⟩ = some a := by
    simp only [get_accidental, hdt]
    exact hacc
  have h3 : get_octave
      ⟨[ c ], accTok a, octTok o, durTok l, dotTok d⟩ = some o := by
    simp only [get_octave, hdt]
    exact hoct
  have h4 : get_length
      ⟨[ c ], accTok a, octTok o, durTok l, dotTok d⟩ = some l := by
    cases l <;> rfl
  have h5 : get_dot
      ⟨[ c ], accTok a, octTok o, durTok l, dotTok d⟩ = d := by
    cases d <;> rfl
  have h6 : to_note_caps ⟨[ c ], accTok a, octTok o, durTok l, dotTok d⟩ =
      some ⟨⟨nm, o, a⟩, ⟨l, DurationType.Note, d⟩⟩ := by
    simp only [to_note_caps, h1, h2, h3, h4, hdt, h5]
  have hN : to_lilypond_note ⟨⟨nm, o, a⟩, ⟨l, DurationType.Note, d⟩⟩ =
      if (lilypondMatch
          ([ c ] ++ accTok a ++ octTok o ++ durTok l ++ dotTok d)).isSome
      then some ([ c ] ++ accTok a ++ octTok o ++ durTok l ++ dotTok d)
      else none := by
    rw [← hname]
    rfl
  rw [hN, hfull]
  simp only [Option.isSome_some, if_true, Option.some_bind]
  rw [to_note, hfull]
  simp only [Option.some_bind]
  exact h6

/-- C1: for every Note value satisfying the rest-consistency invariant of
spec section 3 (`duration_type == Rest` iff `note_name == None` iff
`octave == None` iff `accidental == None`), converting it to a LilyPond
string with `Note::to_lilypond_note` and converting the result back with
`LilyPondNote::to_note` (equivalently `Note::from`) yields a Note equal to
the original, for sounding notes and rests alike and for every length,
octave, accidental and dot setting the invariant admits. -/
theorem c1_encode_decode_roundtrip (n : Note) (h : restInvariant n) :
    (to_lilypond_note n).bind to_note = some n := by
  obtain ⟨⟨nm, o, a⟩, ⟨l, dt, d⟩⟩ := n
  cases dt with
  | Rest =>
    have h1 : nm = NoteName.None := h.1.mp rfl
    have h2 : o = Octave.None := h.2.1.mp h1
    have h3 : a = Accidental.None := h.2.2.mp h2
    subst h1
    subst h2
    subst h3
    exact roundtrip_rest l d
  | Note =>
    have hnm : nm ≠ NoteName.None := fun hh =>
      DurationType.noConfusion (h.1.mpr hh)
    have ho : o ≠ Octave.None := fun hh => hnm (h.2.1.mpr hh)
    cases nm <;> cases a <;> cases o <;>
      first
        | exact absurd rfl hnm
        | exact absurd rfl ho
        | exact roundtrip_sounding _ _ _ _ _ _ (by decide) rfl (by decide)
            (by decide) (by decide)

/-- Witness for C1 at two concrete notes: a dotted half rest and an
F-sharp at octave level 0 with a sixteenth length. -/
theorem c1_roundtrip_witness :
    (restInvariant ⟨⟨NoteName.None, Octave.None, Accidental.None⟩,
        ⟨Length.Half, DurationType.Rest, true⟩⟩ ∧
      (to_lilypond_note ⟨⟨NoteName.None, Octave.None, Accidental.None⟩,
          ⟨Length.Half, DurationType.Rest, true⟩⟩).bind to_note =
        some ⟨⟨NoteName.None, Octave.None, Accidental.None⟩,
          ⟨Length.Half, DurationType.Rest, true⟩⟩) ∧
    (restInvariant ⟨⟨NoteName.F, Octave.S0, Accidental.Sharp⟩,
        ⟨Length.Sixteenth, DurationType.Note, false⟩⟩ ∧
      (to_lilypond_note ⟨⟨NoteName.F, Octave.S0, Accidental.Sharp⟩,
          ⟨Length.Sixteenth, DurationType.Note, false⟩⟩).bind to_note =
        some ⟨⟨NoteName.F, Octave.S0, Accidental.Sharp⟩,
          ⟨Length.Sixteenth, DurationType.Note, false⟩⟩) :=
  ⟨⟨by decide, c1_encode_decode_roundtrip _ (by decide)⟩,
   ⟨by decide, c1_encode_decode_roundtrip _ (by decide)⟩⟩

/-- C3 counterexample: `Note::new(NoteName::None)` does not build a rest.
`Rhythm::new` defaults `duration_type` to `Note` and `Pitch::new` defaults
`octave` to `S3`, so the constructed value has `duration_type == Note`
(not `Rest`), `octave == S3` (not `None`), and the claimed invariant fails
on it. -/
theorem c3_new_rest_marker_counterexample :
    (Note.new NoteName.None).rhythm.duration_type = DurationType.Note ∧
    DurationType.Note ≠ DurationType.Rest ∧
    (Note.new NoteName.None).pitch.octave = Octave.S3 ∧
    ¬ restInvariant (Note.new NoteName.None) := by decide

/-- C3 amended: `Note::new(note_name)` always builds a note with the
default octave `S3`, accidental `None`, Quarter length, no dot and
duration type `Note`, whatever the note name — the rest marker
`NoteName::None` included, for which the resulting value is not a rest and
violates the rest-consistency invariant. -/
theorem c3_new_defaults_amended :
    (∀ nn : NoteName, Note.new nn =
      ⟨⟨nn, Octave.S3, Accidental.None⟩,
        ⟨Length.Quarter, DurationType.Note, false⟩⟩) ∧
    ¬ restInvariant (Note.new NoteName.None) :=
  ⟨fun _ => rfl, by decide⟩

/-- C4: decode is total on grammar-accepted input — `to_note` reaches a
value exactly on the strings the regex accepts, never a panic branch —
and `LilyPondNote::new` yields `Ok` exactly on those strings, a typed
`Err` value on every other string. -/
theorem c4_decode_total_no_panic (s : List Char) :
    (to_note s).isSome = (lilypondMatch s).isSome ∧
    (LilyPondNote.new s).isOk = (lilypondMatch s).isSome := by
  constructor
  · cases h : lilypondMatch s with
    | none => simp [to_note, h]
    | some caps =>
      obtain ⟨nn, acc, oct, dur, dot⟩ := caps
      obtain ⟨⟨c, hc, hnn⟩, ha, ho, hu, ht⟩ := match_mem h
      have hnn2 : nn = [ c ] := hnn
      have ha2 : acc ∈ accCands := ha
      have ho2 : oct ∈ octCands := ho
      have hu2 : dur ∈ durCands := hu
      have ht2 : dot ∈ dotCands := ht
      subst hnn2
      rw [to_note, h]
      simp only [Option.some_bind, Option.isSome_some]
      by_cases hr : c = 'r'
      · subst hr
        obtain ⟨l, b, he, -, -⟩ := rest_decode_caps acc oct dur dot hu2 ht2
        rw [he]
        rfl
      · obtain ⟨nm, e1, -, -⟩ := name_decode c hc hr acc oct dur dot
        obtain ⟨a2, e2, -⟩ := acc_decode c hc hr acc ha2 oct dur dot
        obtain ⟨o2, e3, -, -⟩ := oct_decode c hc hr oct ho2 acc dur dot
        obtain ⟨l, e4, -⟩ := len_decode dur hu2 ([ c ]) acc oct dot
        simp [to_note_caps, e1, e2, e3, e4]
  · cases hb : (lilypondMatch s).isSome <;>
      · simp only [LilyPondNote.new, hb, Bool.false_eq_true, if_false, if_true]
        rfl

/-- C5 counterexample: the failure value of `LilyPondNote::new` is the
bare `Err(())`, so two different malformed inputs produce the very same
error value — the error cannot carry the offending text. -/
theorem c5_error_payload_counterexample :
    LilyPondNote.new [ 'a', 's', 'd', 'f' ] = Except.error () ∧
    LilyPondNote.new [ 'h' ] = Except.error () ∧
    LilyPondNote.new [ 'a', 's', 'd', 'f' ] = LilyPondNote.new [ 'h' ] ∧
    ([ 'a', 's', 'd', 'f' ] : List Char) ≠ [ 'h' ] :=
  ⟨rfl, rfl, rfl, by decide⟩

/-- C5 amended: `LilyPondNote::new(text)` succeeds exactly when the active
grammar `LILYPOND_NOTE_REGEX` accepts `text` in full (the match is
anchored at both ends), the success value wraps the text itself, and the
failure value is the bare `Err(())`, which carries no information about
the offending text. -/
theorem c5_new_success_iff_match (s : List Char) :
    ((∃ ln, LilyPondNote.new s = Except.ok ln ∧ ln.note = s) ↔
      (lilypondMatch s).isSome = true) ∧
    LilyPondNote.new s =
      (if (lilypondMatch s).isSome then Except.ok ⟨s⟩ else Except.error ()) := by
  refine ⟨⟨?_, ?_⟩, rfl⟩
  · rintro ⟨ln, hok, -⟩
    by_cases hb : (lilypondMatch s).isSome
    · exact hb
    · rw [show LilyPondNote.new s = Except.error () from by
        simp [LilyPondNote.new, hb]] at hok
      exact Except.noConfusion hok
  · intro hb
    exact ⟨⟨s⟩, by simp [LilyPondNote.new, hb], rfl⟩

/-- C2: decoding an accepted string and re-encoding the resulting note
yields the canonical form of the string: accidental spellings normalized
to the spelling the encoder emits and every field rendered canonically. -/
theorem c2_decode_encode_canonical (s : List Char) (caps : RegexCaptures)
    (h : lilypondMatch s = some caps) :
    (to_note s).bind to_lilypond_note = some (canonical_form caps) := by
  obtain ⟨nn, acc, oct, dur, dot⟩ := caps
  obtain ⟨⟨c, hc, hnn⟩, ha, ho, hu, ht⟩ := match_mem h
  have hnn2 : nn = [ c ] := hnn
  have ha2 : acc ∈ accCands := ha
  have ho2 : oct ∈ octCands := ho
  have hu2 : dur ∈ durCands := hu
  have ht2 : dot ∈ dotCands := ht
  subst hnn2
  rw [to_note, h]
  simp only [Option.some_bind]
  by_cases hr : c = 'r'
  · subst hr
    obtain ⟨l, b, he, hdl, hdb⟩ := rest_decode_caps acc oct dur dot hu2 ht2
    rw [he]
    simp only [Option.some_bind]
    have hm : matchAcc (durTok l ++ dotTok b) =
        some ([], [], durTok l, dotTok b) :=
      recomb [] (by decide) [] (by decide) _ (durTok_mem l) _ (dotTok_mem b)
    have hfull : lilypondMatch ([ 'r' ] ++ [] ++ [] ++ durTok l ++ dotTok b) =
        some ⟨[ 'r' ], [], [], durTok l, dotTok b⟩ :=
      lilypondMatch_cons (by decide) hm
    have henc : to_lilypond_note
        ⟨⟨NoteName.None, Octave.None, Accidental.None⟩,
          ⟨l, DurationType.Rest, b⟩⟩ =
        if (lilypondMatch
            ([ 'r' ] ++ [] ++ [] ++ durTok l ++ dotTok b)).isSome
        then some ([ 'r' ] ++ [] ++ [] ++ durTok l ++ dotTok b)
        else none := rfl
    rw [henc, hfull]
    simp only [Option.isSome_some, if_true]
    have hcf : canonical_form ⟨[ 'r' ], acc, oct, dur, dot⟩ =
        [ 'r' ] ++ canonDur dur ++ dot := by
      simp [canonical_form]
    rw [hcf, ← hdl, ← hdb]
    rfl
  · obtain ⟨nm, e1, hback, -⟩ := name_decode c hc hr acc oct dur dot
    obtain ⟨a2, e2, ha3⟩ := acc_decode c hc hr acc ha2 oct dur dot
    obtain ⟨o2, e3, ho3, -⟩ := oct_decode c hc hr oct ho2 acc dur dot
    obtain ⟨l, e4, hl3⟩ := len_decode dur hu2 ([ c ]) acc oct dot
    obtain ⟨b, e5, hb3, -⟩ := dot_decode dot ht2 ([ c ]) acc oct dur
    have hdt : get_duration_type ⟨[ c ], acc, oct, dur, dot⟩ =
        DurationType.Note := by
      simp [get_duration_type, hr]
    have h6 : to_note_caps ⟨[ c ], acc, oct, dur, dot⟩ =
        some ⟨⟨nm, o2, a2⟩, ⟨l, DurationType.Note, b⟩⟩ := by
      simp only [to_note_caps, e1, e2, e3, e4, hdt, e5]
    rw [h6]
    simp only [Option.some_bind]
    have hm : matchAcc (accTok a2 ++ octTok o2 ++ durTok l ++ dotTok b) =
        some (accTok a2, octTok o2, durTok l, dotTok b) :=
      recomb _ (accTok_mem a2) _ (octTok_mem o2) _ (durTok_mem l) _
        (dotTok_mem b)
    have hfull : lilypondMatch
        ([ c ] ++ accTok a2 ++ octTok o2 ++ durTok l ++ dotTok b) =
        some ⟨[ c ], accTok a2, octTok o2, durTok l, dotTok b⟩ :=
      lilypondMatch_cons hc hm
    have henc : to_lilypond_note ⟨⟨nm, o2, a2⟩, ⟨l, DurationType.Note, b⟩⟩ =
        if (lilypondMatch
            ([ c ] ++ accTok a2 ++ octTok o2 ++ durTok l ++ dotTok b)).isSome
        then some ([ c ] ++ accTok a2 ++ octTok o2 ++ durTok l ++ dotTok b)
        else none := by
      rw [← hback]
      rfl
    rw [henc, hfull]
    simp only [Option.isSome_some, if_true]
    have hcf : canonical_form ⟨[ c ], acc, oct, dur, dot⟩ =
        [ c ] ++ normalizeAcc acc ++ oct ++ canonDur dur ++ dot := by
      simp [canonical_form, hr]
    rw [hcf, ← ha3, ← ho3, ← hl3, ← hb3]

/-- Witness for C2 at the Dutch-spelled input `fis` with no duration: the
re-encoding uses the one-letter sharp and renders the default length. -/
theorem c2_canonical_witness :
    (to_note [ 'f', 'i', 's' ]).bind to_lilypond_note =
      some (canonical_form ⟨[ 'f' ], [ 'i', 's' ], [], [], []⟩) ∧
    canonical_form ⟨[ 'f' ], [ 'i', 's' ], [], [], []⟩ = [ 'f', 's', '4' ] :=
  ⟨c2_decode_encode_canonical [ 'f', 'i', 's' ]
      ⟨[ 'f' ], [ 'i', 's' ], [], [], []⟩ (by decide),
   by decide⟩

/-! ## Shared helpers for the octave, accidental and rest claims -/

/-- Octave arithmetic on every candidate octave field: the mark counts
stay within the grammar bounds, a comma-free field decodes additively
above the reference level 3 and an apostrophe-free field decodes
subtractively below it. -/
theorem oct_additive (oct : List Char) (ho : oct ∈ octCands) :
    (oct.count apo ≤ 6 ∧ oct.count ',' ≤ 3) ∧
    (oct.count ',' = 0 → oct_of_str oct = octFromNat (3 + oct.count apo)) ∧
    (oct.count apo = 0 → oct_of_str oct = octFromNat (3 - oct.count ',')) := by
  fin_cases ho <;> exact ⟨by decide, by decide, by decide⟩

/-- No candidate octave field mixes the two transposition marks. -/
theorem oct_unmixed : ∀ o ∈ octCands,
    ¬(o.contains ',' = true ∧ o.contains apo = true) := by
  decide

/-- Every candidate accidental field is empty, purely sharp-family or
purely flat-family. -/
theorem acc_pure : ∀ a ∈ accCands,
    a = [] ∨ a ∈ sharpFamily ∨ a ∈ flatFamily := by
  decide

/-- Every candidate dot field has at most one character, and the boolean
dot flag counts its characters exactly. -/
theorem dot_count : ∀ t ∈ dotCands,
    t.length ≤ 1 ∧ (Dots.new (cond (t == [ '.' ]) 1 0)).get_num_dots =
      t.length := by
  decide

/-- Decoding any accepted string whose note-name capture is the rest
token yields a pure rest: `note_name`, `octave` and `accidental` are all
`None` and the duration type is `Rest`. -/
theorem rest_decode_str (s : List Char) (caps : RegexCaptures)
    (h : lilypondMatch s = some caps) (hrr : caps.note_name = [ 'r' ]) :
    ∃ l b, to_note s =
      some ⟨⟨NoteName.None, Octave.None, Accidental.None⟩,
        ⟨l, DurationType.Rest, b⟩⟩ := by
  obtain ⟨nn, acc, oct, dur, dot⟩ := caps
  obtain ⟨-, -, -, hu, ht⟩ := match_mem h
  have hnn2 : nn = [ 'r' ] := hrr
  have hu2 : dur ∈ durCands := hu
  have ht2 : dot ∈ dotCands := ht
  subst hnn2
  rw [to_note, h]
  simp only [Option.some_bind]
  obtain ⟨l, b, he, -, -⟩ := rest_decode_caps acc oct dur dot hu2 ht2
  exact ⟨l, b, he⟩

/-- C6: octave decoding is additive around the reference level 3 — `n`
raise marks decode to level `3 + n` (with `n ≤ 6`) and `n` lower marks to
level `3 − n` (with `n ≤ 3`); `fs,,,` decodes to F sharp at level 0 and
`d` with six raise marks to D at level 9 with the default Quarter length;
the string `c,,,,` with four lower marks is rejected. -/
theorem c6_octave_additive :
    (∀ (s : List Char) (caps : RegexCaptures), lilypondMatch s = some caps →
      caps.note_name ≠ [ 'r' ] →
      (caps.octave.count apo ≤ 6 ∧ caps.octave.count ',' ≤ 3) ∧
      (caps.octave.count ',' = 0 →
        get_octave caps = octFromNat (3 + caps.octave.count apo)) ∧
      (caps.octave.count apo = 0 →
        get_octave caps = octFromNat (3 - caps.octave.count ','))) ∧
    to_note [ 'f', 's', ',', ',', ',' ] =
      some ⟨⟨NoteName.F, Octave.S0, Accidental.Sharp⟩,
        ⟨Length.Quarter, DurationType.Note, false⟩⟩ ∧
    to_note ([ 'd' ] ++ List.replicate 6 apo) =
      some ⟨⟨NoteName.D, Octave.S9, Accidental.None⟩,
        ⟨Length.Quarter, DurationType.Note, false⟩⟩ ∧
    lilypondMatch [ 'c', ',', ',', ',', ',' ] = none := by
  refine ⟨?_, by decide, by decide, by decide⟩
  intro s caps h hnr
  obtain ⟨⟨c, hc, hnn⟩, -, ho, -, -⟩ := match_mem h
  have hr : ¬(caps.note_name = [ 'r' ]) := hnr
  have hdt : get_duration_type caps = DurationType.Note := by
    simp [get_duration_type, hr]
  have hgo : get_octave caps = oct_of_str caps.octave := by
    simp only [get_octave, hdt]
  rw [hgo]
  exact oct_additive caps.octave ho

/-- Witness for C6 at the accepted input `bf,,` (two lower marks). -/
theorem c6_octave_witness :
    ((⟨[ 'b' ], [ 'f' ], [ ',', ',' ], [], []⟩ : RegexCaptures).octave.count
        apo ≤ 6 ∧
      (⟨[ 'b' ], [ 'f' ], [ ',', ',' ], [], []⟩ :
        RegexCaptures).octave.count ',' ≤ 3) ∧
    ((⟨[ 'b' ], [ 'f' ], [ ',', ',' ], [], []⟩ :
        RegexCaptures).octave.count ',' = 0 →
      get_octave ⟨[ 'b' ], [ 'f' ], [ ',', ',' ], [], []⟩ =
        octFromNat (3 + (⟨[ 'b' ], [ 'f' ], [ ',', ',' ], [], []⟩ :
          RegexCaptures).octave.count apo)) ∧
    ((⟨[ 'b' ], [ 'f' ], [ ',', ',' ], [], []⟩ :
        RegexCaptures).octave.count apo = 0 →
      get_octave ⟨[ 'b' ], [ 'f' ], [ ',', ',' ], [], []⟩ =
        octFromNat (3 - (⟨[ 'b' ], [ 'f' ], [ ',', ',' ], [], []⟩ :
          RegexCaptures).octave.count ',')) :=
  c6_octave_additive.1 [ 'b', 'f', ',', ',' ]
    ⟨[ 'b' ], [ 'f' ], [ ',', ',' ], [], []⟩ (by decide) (by decide)

/-- C7: no accepted string mixes the two octave marks in its octave field
or the two accidental families in its accidental field; in particular the
mixed strings `asf`, `aesis` and `c` followed by a lower then a raise
mark are all rejected by the grammar, so no Note is ever produced from
them. -/
theorem c7_mixed_marks_rejected :
    (lilypondMatch [ 'a', 's', 'f' ] = none ∧
      lilypondMatch [ 'a', 'e', 's', 'i', 's' ] = none ∧
      lilypondMatch [ 'c', ',', apo ] = none) ∧
    ∀ (s : List Char) (caps : RegexCaptures), lilypondMatch s = some caps →
      ¬(caps.octave.contains ',' = true ∧ caps.octave.contains apo = true) ∧
      (caps.accidental = [] ∨ caps.accidental ∈ sharpFamily ∨
        caps.accidental ∈ flatFamily) := by
  refine ⟨⟨by decide, by decide, by decide⟩, ?_⟩
  intro s caps h
  obtain ⟨-, ha, ho, -, -⟩ := match_mem h
  exact ⟨oct_unmixed caps.octave ho, acc_pure caps.accidental ha⟩

/-- Witness for C7 at the accepted Dutch-spelled input `fis`. -/
theorem c7_mixed_marks_witness :
    ¬((⟨[ 'f' ], [ 'i', 's' ], [], [], []⟩ : RegexCaptures).octave.contains
        ',' = true ∧
      (⟨[ 'f' ], [ 'i', 's' ], [], [], []⟩ : RegexCaptures).octave.contains
        apo = true) ∧
    ((⟨[ 'f' ], [ 'i', 's' ], [], [], []⟩ :
        RegexCaptures).accidental = [] ∨
      (⟨[ 'f' ], [ 'i', 's' ], [], [], []⟩ :
        RegexCaptures).accidental ∈ sharpFamily ∨
      (⟨[ 'f' ], [ 'i', 's' ], [], [], []⟩ :
        RegexCaptures).accidental ∈ flatFamily) :=
  c7_mixed_marks_rejected.2 [ 'f', 'i', 's' ]
    ⟨[ 'f' ], [ 'i', 's' ], [], [], []⟩ (by decide)

/-- C8: rest consistency of the codec — decoding any accepted string
whose note-name token is the rest symbol yields `note_name = None`,
`octave = None`, `accidental = None` with duration type `Rest`; and
encoding any Note whose duration type is `Rest` ignores its pitch fields
entirely and emits only the rest token, the duration digits and the dot
suffix. -/
theorem c8_rest_consistency :
    (∀ (s : List Char) (caps : RegexCaptures), lilypondMatch s = some caps →
      caps.note_name = [ 'r' ] →
      ∃ l b, to_note s =
        some ⟨⟨NoteName.None, Octave.None, Accidental.None⟩,
          ⟨l, DurationType.Rest, b⟩⟩) ∧
    (∀ n : Note, n.rhythm.duration_type = DurationType.Rest →
      to_lilypond_note n =
        some ([ 'r' ] ++ durTok n.rhythm.length ++ dotTok n.rhythm.dotted)) := by
  constructor
  · exact rest_decode_str
  · intro n hdt
    obtain ⟨⟨nm, o, a⟩, ⟨l, dt, d⟩⟩ := n
    have hdt2 : dt = DurationType.Rest := hdt
    subst hdt2
    have hm : matchAcc (durTok l ++ dotTok d) =
        some ([], [], durTok l, dotTok d) :=
      recomb [] (by decide) [] (by decide) _ (durTok_mem l) _ (dotTok_mem d)
    have hfull : lilypondMatch ([ 'r' ] ++ [] ++ [] ++ durTok l ++ dotTok d) =
        some ⟨[ 'r' ], [], [], durTok l, dotTok d⟩ :=
      lilypondMatch_cons (by decide) hm
    have henc : to_lilypond_note
        ⟨⟨nm, o, a⟩, ⟨l, DurationType.Rest, d⟩⟩ =
        if (lilypondMatch
            ([ 'r' ] ++ [] ++ [] ++ durTok l ++ dotTok d)).isSome
        then some ([ 'r' ] ++ [] ++ [] ++ durTok l ++ dotTok d)
        else none := rfl
    rw [henc, hfull]
    simp only [Option.isSome_some, if_true]
    rfl

/-- Witness for C8: the rest string `r4` decodes to a pure rest and a
rest Note carrying junk pitch fields encodes to `r2.` regardless. -/
theorem c8_rest_witness :
    (∃ l b, to_note [ 'r', '4' ] =
      some ⟨⟨NoteName.None, Octave.None, Accidental.None⟩,
        ⟨l, DurationType.Rest, b⟩⟩) ∧
    to_lilypond_note ⟨⟨NoteName.A, Octave.S5, Accidental.Sharp⟩,
        ⟨Length.Half, DurationType.Rest, true⟩⟩ =
      some ([ 'r' ] ++ durTok Length.Half ++ dotTok true) :=
  ⟨c8_rest_consistency.1 [ 'r', '4' ] ⟨[ 'r' ], [], [], [ '4' ], []⟩
      (by decide) rfl,
   c8_rest_consistency.2 _ rfl⟩

/-- C9: dots behave monotonically up to the dot field maximum of the
active grammar, which is one — decoding an accepted string with `k` dot
characters in its dot field yields a dot flag counting exactly `k`; the
grammar accepts the dot field of every accepted string rebuilt with any
`k ≤ 1` dots; and two dots are rejected, pinning the maximum at one. -/
theorem c9_dots_monotone :
    (∀ (s : List Char) (caps : RegexCaptures), lilypondMatch s = some caps →
      caps.dot.length ≤ 1 ∧
      (Dots.new (cond (get_dot caps) 1 0)).get_num_dots = caps.dot.length) ∧
    (∀ (s : List Char) (caps : RegexCaptures) (k : Nat),
      lilypondMatch s = some caps → k ≤ 1 →
      (lilypondMatch (caps.note_name ++ caps.accidental ++ caps.octave ++
        caps.duration ++ List.replicate k '.')).isSome = true) ∧
    lilypondMatch [ 'a', '4', '.', '.' ] = none := by
  refine ⟨?_, ?_, by decide⟩
  · intro s caps h
    obtain ⟨-, -, -, -, ht⟩ := match_mem h
    exact dot_count caps.dot ht
  · intro s caps k h hk
    obtain ⟨⟨c, hc, hnn⟩, ha, ho, hu, -⟩ := match_mem h
    have hdm : List.replicate k '.' ∈ dotCands := by
      interval_cases k <;> decide
    have hm : matchAcc (caps.accidental ++ caps.octave ++ caps.duration ++
        List.replicate k '.') =
        some (caps.accidental, caps.octave, caps.duration,
          List.replicate k '.') :=
      recomb _ ha _ ho _ hu _ hdm
    have hfull : lilypondMatch ([ c ] ++ caps.accidental ++ caps.octave ++
        caps.duration ++ List.replicate k '.') =
        some ⟨[ c ], caps.accidental, caps.octave, caps.duration,
          List.replicate k '.'⟩ :=
      lilypondMatch_cons hc hm
    rw [hnn, hfull]
    rfl

/-- Witness for C9 at the dotted input `a4.` and the rebuild of `a4` with
one dot. -/
theorem c9_dots_witness :
    ((⟨[ 'a' ], [], [], [ '4' ], [ '.' ]⟩ : RegexCaptures).dot.length ≤ 1 ∧
      (Dots.new (cond (get_dot ⟨[ 'a' ], [], [], [ '4' ], [ '.' ]⟩) 1
        0)).get_num_dots =
        (⟨[ 'a' ], [], [], [ '4' ], [ '.' ]⟩ :
          RegexCaptures).dot.length) ∧
    (lilypondMatch ((⟨[ 'a' ], [], [], [ '4' ], []⟩ :
        RegexCaptures).note_name ++
      (⟨[ 'a' ], [], [], [ '4' ], []⟩ : RegexCaptures).accidental ++
      (⟨[ 'a' ], [], [], [ '4' ], []⟩ : RegexCaptures).octave ++
      (⟨[ 'a' ], [], [], [ '4' ], []⟩ : RegexCaptures).duration ++
      List.replicate 1 '.')).isSome = true :=
  ⟨c9_dots_monotone.1 [ 'a', '4', '.' ] ⟨[ 'a' ], [], [], [ '4' ], [ '.' ]⟩
      (by decide),
   c9_dots_monotone.2.1 [ 'a', '4' ] ⟨[ 'a' ], [], [], [ '4' ], []⟩ 1
      (by decide) (by decide)⟩

/-- C10: the grammar accepts accidental and octave marks after the rest
token — `rff` and `res,` both match — and decoding any accepted string
whose note-name capture is the rest token still yields a pure rest,
because every pitch sub-mapping short-circuits on the rest duration type
before examining its captured field. -/
theorem c10_rest_junk_accepted :
    ((lilypondMatch [ 'r', 'f', 'f' ]).isSome = true ∧
      (lilypondMatch [ 'r', 'e', 's', ',' ]).isSome = true) ∧
    ∀ (s : List Char) (caps : RegexCaptures), lilypondMatch s = some caps →
      caps.note_name = [ 'r' ] →
      ∃ l b, to_note s =
        some ⟨⟨NoteName.None, Octave.None, Accidental.None⟩,
          ⟨l, DurationType.Rest, b⟩⟩ := by
  exact ⟨⟨by decide, by decide⟩, rest_decode_str⟩

/-- Witness for C10 at the accepted rest-with-junk input `rff`. -/
theorem c10_rest_junk_witness :
    ∃ l b, to_note [ 'r', 'f', 'f' ] =
      some ⟨⟨NoteName.None, Octave.None, Accidental.None⟩,
        ⟨l, DurationType.Rest, b⟩⟩ :=
  c10_rest_junk_accepted.2 [ 'r', 'f', 'f' ]
    ⟨[ 'r' ], [ 'f', 'f' ], [], [], []⟩ (by decide) rfl
